import Mathlib

/-!
Verification of the Lovable Chat Exporter capture-and-export engine.

The definitions below are a shallow embedding of `content.js` and `popup.js`:
the in-memory message store (`capturedMessages`), the incremental scan/upsert
logic (`scanVisibleMessages`), the sorted view (`getSortedMessages`), the
debounced persistence (`flushSave`), the auto-scroll history-completion loop
(`autoScrollAndCapture`), the Markdown converter (`htmlToMarkdown`), the
HTML escaping (`escapeHtml`), and the thread-key derivation (`getThreadKey`
in both the content script and the popup).
-/

/-- A captured chat message, as assembled by `parseMessageElement` in
`content.js`: `id` from the `data-message-id` attribute, `role` derived
from the id prefix, `timestampText` from the date/time spans, `topPx` from
the CSS `top` style (the virtualized-list offset used as sort key), and the
two content fields. -/
structure MessageRecord where
  id : String
  role : String
  timestampText : String
  topPx : Int
  contentHtml : String
  contentText : String
deriving Repr, DecidableEq

/-- The in-memory store `capturedMessages` of `content.js` (a JS object used
as an id-keyed map).  JS objects preserve insertion order for string keys,
so we model the store as the list of records in insertion order, with ids
unique. -/
abbrev Store := List MessageRecord

/-- The body of the per-element branch of `scanVisibleMessages`
(`content.js` lines 116-122): if the id is not yet present the record is
inserted (and counted as new, second component `true`); otherwise only the
`topPx` field of the stored record is overwritten with the newly observed
value. -/
def upsert (store : Store) (msg : MessageRecord) : Store × Bool :=
  if store.any (fun r => r.id == msg.id) then
    (store.map (fun r => if r.id == msg.id then { r with topPx := msg.topPx } else r), false)
  else
    (store ++ [msg], true)

/-- `scanVisibleMessages` (`content.js` lines 110-126) over an already
parsed candidate list: folds `upsert` over the candidates, returning the
updated store and the number of newly inserted records. -/
def scanVisibleMessages (store : Store) (msgs : List MessageRecord) : Store × Nat :=
  msgs.foldl
    (fun acc m =>
      let r := upsert acc.1 m
      (r.1, acc.2 + (if r.2 then 1 else 0)))
    (store, 0)

/-- The comparator of `getSortedMessages` (`content.js` line 263):
`(a, b) => a.topPx - b.topPx` sorts ascending by `topPx`. -/
def lePos (a b : MessageRecord) : Bool := a.topPx ≤ b.topPx

/-- `getSortedMessages` (`content.js` lines 262-264):
`Object.values(capturedMessages).sort((a, b) => a.topPx - b.topPx)`.
JS `Array.prototype.sort` is stable (ES2019), and `Object.values` yields
values in insertion order, so this is a stable merge sort over the
insertion-ordered store. -/
def getSortedMessages (store : Store) : List MessageRecord :=
  store.mergeSort lePos

/-- Reloading an exported message array into a fresh store, re-keying each
record by its `id` in array order (the `loadFrom` operation of the spec;
in the code the persisted map produced by `saveMessages` is read back by
`loadMessages` and becomes `capturedMessages`). -/
def loadFrom (msgs : List MessageRecord) : Store :=
  msgs.foldl (fun s m => (upsert s m).1) []

/-- The message array of the JSON export (`exportJSON`, `content.js` lines
349-356): the `messages` field is `getSortedMessages()` verbatim. -/
def exportJSONMessages (store : Store) : List MessageRecord :=
  getSortedMessages store

section ThreadKey

/-- `path.replace(/\/$/, '')`: strip one trailing slash if present (used by
both `getThreadKey` implementations). -/
def stripTrailingSlash (p : String) : String :=
  if p.endsWith "/" then p.dropRight 1 else p

/-- The base64 alphabet used by `btoa`. -/
def base64Alphabet : List Char :=
  "ABCDEFGHIJKLMNOPQRSTUVWXYZabcdefghijklmnopqrstuvwxyz0123456789+/".data

/-- The base64 digit for a 6-bit value. -/
def b64Char (n : Nat) : Char := base64Alphabet.getD n 'A'

/-- Base64 encoding of a byte list, with `=` padding (the browser `btoa`
builtin used by `getThreadKey`). -/
def btoaBytes : List Nat → List Char
  | [] => []
  | [b1] => [b64Char (b1 / 4), b64Char (b1 % 4 * 16), '=', '=']
  | [b1, b2] => [b64Char (b1 / 4), b64Char (b1 % 4 * 16 + b2 / 16), b64Char (b2 % 16 * 4), '=']
  | b1 :: b2 :: b3 :: rest =>
      b64Char (b1 / 4) :: b64Char (b1 % 4 * 16 + b2 / 16) ::
        b64Char (b2 % 16 * 4 + b3 / 64) :: b64Char (b3 % 64) :: btoaBytes rest

/-- The browser `btoa` builtin on a Latin-1 string. -/
def btoa (s : String) : String :=
  ⟨btoaBytes (s.data.map (fun c => c.toNat % 256))⟩

/-- Whether a character matches `[a-z0-9]` with the `i` flag, i.e. is an
ASCII letter or digit. -/
def isAsciiAlphanum (c : Char) : Bool :=
  ('a' ≤ c && c ≤ 'z') || ('A' ≤ c && c ≤ 'Z') || ('0' ≤ c && c ≤ '9')

/-- `.replace(/[^a-z0-9]/gi, '_')`: replace every non-alphanumeric
character by an underscore. -/
def sanitizeKey (s : String) : String :=
  ⟨s.data.map (fun c => if isAsciiAlphanum c then c else '_')⟩

/-- `getThreadKey` of the content script (`content.js` lines 19-24), as a
function of `location.pathname`. -/
def getThreadKey (pathname : String) : String :=
  "lce_thread_" ++ sanitizeKey (btoa (stripTrailingSlash pathname))

/-- `getThreadKey` of the popup (`popup.js` lines 5-8), as a function of
`new URL(url).pathname`. -/
def popupGetThreadKey (pathname : String) : String :=
  "lce_thread_" ++ sanitizeKey (btoa (stripTrailingSlash pathname))

end ThreadKey

section ClearOperation

/-- The joint state visible to the clear operation: the content script's
in-memory `capturedMessages` and the `chrome.storage.local` key-value
store (an association list of storage key to persisted record map). -/
structure ExtState where
  capturedMessages : Store
  storageLocal : List (String × Store)

/-- `chrome.storage.local.remove([key])`: drop the entry for `key`. -/
def storageRemove (kv : List (String × Store)) (key : String) : List (String × Store) :=
  kv.filter (fun e => e.1 != key)

/-- `chrome.storage.local.get([key])` followed by `result[key]`: the
persisted record for `key`, if any. -/
def storageGet (kv : List (String × Store)) (key : String) : Option Store :=
  (kv.find? (fun e => e.1 == key)).map Prod.snd

/-- The clear-transcript operation as wired from the popup's `btn-clear`
handler (`popup.js` lines 86-92): `clearMessages(tab.url)` removes the
durable record for the thread key, then the `clearMessages` message makes
the content script set `capturedMessages = {}`
(`content.js` lines 708-712). -/
def clearThread (st : ExtState) (pathname : String) : ExtState :=
  { capturedMessages := [],
    storageLocal := storageRemove st.storageLocal (getThreadKey pathname) }

end ClearOperation

-- Sample records shared by the concrete witnesses below.

/-- A sample user record. -/
def recU : MessageRecord :=
  { id := "umsg_1", role := "user", timestampText := "Jan 1 10:00",
    topPx := 50, contentHtml := "<p>hi</p>", contentText := "hi" }

/-- The sample user record re-observed at a different offset. -/
def recU' : MessageRecord :=
  { id := "umsg_1", role := "user", timestampText := "Jan 2 11:00",
    topPx := 75, contentHtml := "<p>other</p>", contentText := "other" }

/-- A sample assistant record. -/
def recA : MessageRecord :=
  { id := "aimsg_2", role := "ai", timestampText := "Jan 1 10:01",
    topPx := 200, contentHtml := "", contentText := "ok" }

-- ── C1: first-write-wins upsert ───────────────────────────────────────

/-- C1: for a record whose id is already present in the store, a
re-observation (another upsert of that id) never increases the stored
record count and updates only the `topPx` field (the stored record keeps
`id`, `role`, `timestampText`, `contentHtml`, `contentText` from the first
successful parse); for a record with a new id, it is inserted at the end
and counted as new. -/
theorem upsert_firstWriteWins (store : Store) (m : MessageRecord) :
    ((∃ r ∈ store, r.id = m.id) →
      (upsert store m).1.length = store.length ∧
      (upsert store m).2 = false ∧
      (upsert store m).1
        = store.map (fun r => if r.id = m.id then { r with topPx := m.topPx } else r)) ∧
    ((∀ r ∈ store, r.id ≠ m.id) →
      (upsert store m).1 = store ++ [m] ∧ (upsert store m).2 = true) := by
  constructor
  · rintro ⟨r, hr, hid⟩
    have hany : store.any (fun r => r.id == m.id) = true := by
      rw [List.any_eq_true]
      exact ⟨r, hr, by simp [hid]⟩
    have hfun : (fun r : MessageRecord => if r.id == m.id then { r with topPx := m.topPx } else r)
        = (fun r => if r.id = m.id then { r with topPx := m.topPx } else r) := by
      funext r
      by_cases h : r.id = m.id <;> simp [h]
    simp [upsert, hany, hfun]
  · intro h
    have hany : store.any (fun r => r.id == m.id) = false := by
      have : ¬ store.any (fun r => r.id == m.id) = true := by
        rw [List.any_eq_true]
        rintro ⟨r, hr, hid⟩
        exact h r hr (by simpa using hid)
      simpa using this
    simp [upsert, hany]

/-- C1 witness: concrete instantiation of both branches of
`upsert_firstWriteWins`. -/
theorem upsert_firstWriteWins_witness :
    ((upsert [recU] recU').1.length = [recU].length ∧
     (upsert [recU] recU').2 = false ∧
     (upsert [recU] recU').1
       = [recU].map (fun r => if r.id = recU'.id then { r with topPx := recU'.topPx } else r)) ∧
    ((upsert [recU] recA).1 = [recU] ++ [recA] ∧ (upsert [recU] recA).2 = true) :=
  ⟨(upsert_firstWriteWins [recU] recU').1 (by decide),
   (upsert_firstWriteWins [recU] recA).2 (by decide)⟩

-- ── C2: sorted, stable ordering ───────────────────────────────────────

/-- The comparator is transitive. -/
theorem lePos_trans : ∀ a b c : MessageRecord, lePos a b → lePos b c → lePos a c := by
  intro a b c hab hbc
  simp only [lePos, decide_eq_true_eq] at *
  omega

/-- The comparator is total. -/
theorem lePos_total : ∀ a b : MessageRecord, lePos a b || lePos b a := by
  intro a b
  simp only [lePos, Bool.or_eq_true, decide_eq_true_eq]
  omega

/-- C2: `getSortedMessages` returns the records sorted ascending by
`topPx`, and for any fixed `topPx` value the subsequence of records at
that value equals the corresponding subsequence of the store in insertion
order (stable sort over the insertion-ordered values). -/
theorem getSortedMessages_sorted_stable (store : Store) :
    (getSortedMessages store).Pairwise (fun a b => a.topPx ≤ b.topPx) ∧
    ∀ k : Int, (getSortedMessages store).filter (fun r => r.topPx == k)
      = store.filter (fun r => r.topPx == k) := by
  constructor
  · have h := @List.sorted_mergeSort MessageRecord lePos lePos_trans lePos_total store
    exact h.imp (by intro a b hab; simpa [lePos] using hab)
  · intro k
    have hall : ∀ r ∈ store.filter (fun r => r.topPx == k), r.topPx = k := by
      intro r hr
      simpa using List.of_mem_filter hr
    have hpw : (store.filter (fun r => r.topPx == k)).Pairwise (fun a b => lePos a b) := by
      apply List.pairwise_of_forall_mem_list
      intro a ha b hb
      simp [lePos, hall a ha, hall b hb]
    have h1 : List.Sublist (store.filter (fun r => r.topPx == k)) (store.mergeSort lePos) :=
      List.sublist_mergeSort lePos_trans lePos_total hpw (List.filter_sublist store)
    have h2 : List.Perm ((store.mergeSort lePos).filter (fun r => r.topPx == k))
        (store.filter (fun r => r.topPx == k)) :=
      (List.mergeSort_perm store lePos).filter _
    have h3 : List.Sublist (store.filter (fun r => r.topPx == k))
        ((store.mergeSort lePos).filter (fun r => r.topPx == k)) := by
      have h4 := h1.filter (fun r => r.topPx == k)
      have h5 : List.filter (fun r => r.topPx == k) (List.filter (fun r => r.topPx == k) store)
          = List.filter (fun r => r.topPx == k) store :=
        List.filter_eq_self.mpr (fun a ha => (List.mem_filter.mp ha).2)
      rwa [h5] at h4
    exact (h3.eq_of_length h2.length_eq.symm).symm

-- ── C3: JSON export round-trips ───────────────────────────────────────

/-- Folding `upsert` over records whose ids are fresh for the accumulator
and mutually distinct appends them in order. -/
theorem loadFrom_fresh_append (l : List MessageRecord) : ∀ acc : Store,
    (∀ m ∈ l, ∀ r ∈ acc, r.id ≠ m.id) → (l.map (fun r => r.id)).Nodup →
    l.foldl (fun s m => (upsert s m).1) acc = acc ++ l := by
  induction l with
  | nil => intro acc _ _; simp
  | cons m rest ih =>
    intro acc hdisj hnd
    have hany : acc.any (fun r => r.id == m.id) = false := by
      have : ¬ acc.any (fun r => r.id == m.id) = true := by
        rw [List.any_eq_true]
        rintro ⟨r, hr, hid⟩
        exact hdisj m (by simp) r hr (by simpa using hid)
      simpa using this
    have hstep : (upsert acc m).1 = acc ++ [m] := by simp [upsert, hany]
    have hnd' := hnd
    simp only [List.map_cons, List.nodup_cons] at hnd'
    have hrec := ih (acc ++ [m]) ?_ hnd'.2
    · calc (m :: rest).foldl (fun s m => (upsert s m).1) acc
          = rest.foldl (fun s m => (upsert s m).1) (acc ++ [m]) := by
            simp [List.foldl_cons, hstep]
        _ = (acc ++ [m]) ++ rest := hrec
        _ = acc ++ m :: rest := by simp
    · intro m' hm' r hr
      rcases List.mem_append.mp hr with hra | hrm
      · exact hdisj m' (List.mem_cons_of_mem _ hm') r hra
      · have : r = m := by simpa using hrm
        subst this
        intro hc
        exact hnd'.1 (hc ▸ List.mem_map_of_mem (fun r => r.id) hm')

/-- C3: the message array of the JSON export, reloaded into a fresh empty
store by re-keying each record by its id in array order, yields a store
whose sorted sequence is identical, record for record, to the original
sorted sequence. -/
theorem exportJSON_roundTrip (store : Store)
    (h : (store.map (fun r => r.id)).Nodup) :
    getSortedMessages (loadFrom (exportJSONMessages store)) = getSortedMessages store := by
  have hperm : List.Perm (store.mergeSort lePos) store := List.mergeSort_perm store lePos
  have hnd : ((store.mergeSort lePos).map (fun r => r.id)).Nodup :=
    ((hperm.map (fun r => r.id)).nodup_iff).mpr h
  have hload : loadFrom (store.mergeSort lePos) = store.mergeSort lePos := by
    have := loadFrom_fresh_append (store.mergeSort lePos) []
      (by intro m _ r hr; simp at hr) hnd
    simpa [loadFrom] using this
  have hsorted : (store.mergeSort lePos).Pairwise (fun a b => lePos a b) :=
    @List.sorted_mergeSort MessageRecord lePos lePos_trans lePos_total store
  show (loadFrom (getSortedMessages store)).mergeSort lePos = store.mergeSort lePos
  rw [getSortedMessages, hload, List.mergeSort_of_sorted hsorted]

/-- C3 witness: the round-trip at a concrete two-record store. -/
theorem exportJSON_roundTrip_witness :
    getSortedMessages (loadFrom (exportJSONMessages [recA, recU]))
      = getSortedMessages [recA, recU] :=
  exportJSON_roundTrip [recA, recU] (by decide)

-- ── C4: clear empties memory and durable storage ──────────────────────

/-- C4: the clear-transcript operation exposed to the popup empties the
in-memory message map and removes the durable record for the current
thread key: afterwards both the in-memory count is zero and the persisted
record for that thread is absent. -/
theorem clearThread_clears (st : ExtState) (pathname : String) :
    (clearThread st pathname).capturedMessages.length = 0 ∧
    storageGet (clearThread st pathname).storageLocal (getThreadKey pathname) = none := by
  refine ⟨rfl, ?_⟩
  simp only [clearThread, storageGet, storageRemove]
  have : (st.storageLocal.filter
      (fun e => e.1 != getThreadKey pathname)).find?
      (fun e => e.1 == getThreadKey pathname) = none := by
    rw [List.find?_eq_none]
    intro e he
    have := List.of_mem_filter he
    simpa using this
  rw [this]
  rfl

-- ── C10: content script and popup agree on the thread key ─────────────

/-- C10: for the same pathname, the content script's `getThreadKey` and
the popup's `getThreadKey` compute the same storage key (both strip one
trailing slash, base64-encode the path, and replace non-alphanumeric
characters with an underscore under the same prefix), so popup reads,
exports and clears operate on exactly the record the content script
persists. -/
theorem getThreadKey_agree (pathname : String) :
    getThreadKey pathname = popupGetThreadKey pathname ∧
    getThreadKey pathname
      = "lce_thread_" ++ sanitizeKey (btoa (stripTrailingSlash pathname)) :=
  ⟨rfl, rfl⟩

-- ── C5: persistence debounce timing ───────────────────────────────────

/-- Timed model of `flushSave` (`content.js` lines 100-108) driven by a
sorted list of call times.  A call when no save is pending sets
`pendingSave` and schedules the write for 400ms later (`setTimeout(...,
400)`); a call while a save is pending returns immediately (`if
(pendingSave) return`) and in particular does not touch the timer.  A
scheduled write that comes due before the next call fires, clears
`pendingSave`, and the next call schedules a fresh window.  The result is
the list of times at which durable writes fire. -/
def flushWrites : List Nat → Option Nat → List Nat
  | [], none => []
  | [], some d => [d]
  | t :: ts, none => flushWrites ts (some (t + 400))
  | t :: ts, some d =>
      if d ≤ t then d :: flushWrites ts (some (t + 400)) else flushWrites ts (some d)

/-- Write times produced by a sequence of `flushSave` calls starting with
no pending save. -/
def writeTimes (calls : List Nat) : List Nat := flushWrites calls none

/-- C5 counterexample: for the burst of `flushSave` calls at 0ms and
300ms, the single write fires at 400ms — 400ms after the first call —
and not at 700ms, which is where a trailing-edge debounce whose timer
resets on every call would fire.  The `pendingSave` flag never resets the
timer. -/
theorem flushSave_not_trailing_edge :
    writeTimes [0, 300] = [400] ∧ writeTimes [0, 300] ≠ [300 + 400] := by
  constructor
  · rfl
  · decide

/-- All calls landing strictly before the pending deadline are absorbed
without rescheduling. -/
theorem flushWrites_absorbed (d : Nat) :
    ∀ ts : List Nat, (∀ t ∈ ts, t < d) → flushWrites ts (some d) = [d] := by
  intro ts
  induction ts with
  | nil => intro _; rfl
  | cons t ts ih =>
    intro h
    have ht : t < d := h t (by simp)
    have : ¬ d ≤ t := by omega
    simp only [flushWrites, if_neg this]
    exact ih (fun u hu => h u (List.mem_cons_of_mem _ hu))

/-- C5 amended: repeated `flushSave` calls within the 400ms window do
coalesce into a single durable write, but the write fires 400ms after the
FIRST call of the burst — subsequent calls within the window are dropped
by the `pendingSave` guard and do not reset the timer. -/
theorem flushSave_single_write_after_first (t1 : Nat) (rest : List Nat)
    (h : ∀ t ∈ rest, t < t1 + 400) :
    writeTimes (t1 :: rest) = [t1 + 400] :=
  flushWrites_absorbed (t1 + 400) rest h

/-- C5 amended witness: the burst at 0ms, 100ms, 300ms produces exactly
one write, at 400ms. -/
theorem flushSave_single_write_after_first_witness :
    writeTimes [0, 100, 300] = [0 + 400] :=
  flushSave_single_write_after_first 0 [100, 300] (by decide)

-- ── C8: timestamp extraction ──────────────────────────────────────────

/-- JS `Array.prototype.join(' ')`. -/
def joinSpace : List String → String
  | [] => ""
  | [x] => x
  | x :: xs => x ++ " " ++ joinSpace xs

/-- JS `String.prototype.trim()`: strip leading and trailing whitespace. -/
def jsTrim (s : String) : String :=
  ⟨((s.data.dropWhile Char.isWhitespace).reverse.dropWhile Char.isWhitespace).reverse⟩

/-- The timestamp extraction of `parseMessageElement` (`content.js` lines
56-60).  The argument models the result of the date-span lookup: `none`
when `querySelector` finds no date span, otherwise the date span's text
content paired with the text content of its `nextElementSibling` (the
time span), `none` when there is no following sibling.  The code computes
`[dateSpan?.textContent?.trim(), timeSpan?.textContent?.trim()]
.filter(Boolean).join(' ')`. -/
def timestampTextOf (dateSpan : Option (String × Option String)) : String :=
  let dateTxt : Option String := dateSpan.map (fun p => jsTrim p.1)
  let timeTxt : Option String := (dateSpan.bind (fun p => p.2)).map (fun s => jsTrim s)
  joinSpace (([dateTxt, timeTxt].filterMap id).filter (fun s => s != ""))

/-- C8 counterexample: with a date label present ("Jan 1") but no
following time label, the extraction yields the partial value "Jan 1",
not the empty string the claim requires when either label is absent. -/
theorem timestamp_partial_on_missing_time :
    timestampTextOf (some ("Jan 1", none)) = "Jan 1" ∧
    timestampTextOf (some ("Jan 1", none)) ≠ "" := by
  constructor
  · rfl
  · decide

/-- C8 amended: when both labels are present with nonblank trimmed text
the result is their trimmed texts joined by exactly one space; when the
date label is absent the result is the empty string (the time span is
only looked up as the date span's sibling); when the time label is absent
the result degrades to the date label's trimmed text alone — a partial
value, never an error. -/
theorem timestampTextOf_spec (d t : String) (hd : jsTrim d ≠ "") (ht : jsTrim t ≠ "") :
    timestampTextOf (some (d, some t)) = jsTrim d ++ " " ++ jsTrim t ∧
    timestampTextOf none = "" ∧
    timestampTextOf (some (d, none)) = jsTrim d := by
  have hd' : (jsTrim d != "") = true := by simpa using hd
  have ht' : (jsTrim t != "") = true := by simpa using ht
  refine ⟨?_, rfl, ?_⟩
  · simp [timestampTextOf, joinSpace, hd', ht']
  · simp [timestampTextOf, joinSpace, hd']

/-- C8 amended witness at concrete label texts. -/
theorem timestampTextOf_spec_witness :
    timestampTextOf (some ("Jan 1 ", some " 12:30")) = jsTrim "Jan 1 " ++ " " ++ jsTrim " 12:30" ∧
    timestampTextOf none = "" ∧
    timestampTextOf (some ("Jan 1 ", none)) = jsTrim "Jan 1 " :=
  timestampTextOf_spec "Jan 1 " " 12:30" (by decide) (by decide)

-- ── C9: HTML export escapes the plain-text fallback ───────────────────

/-- `String.prototype.replace(/c/g, rep)` for a single-character pattern:
replace every occurrence of the character `c` by `rep`. -/
def replaceChar (c : Char) (rep : List Char) : List Char → List Char
  | [] => []
  | x :: xs => if x == c then rep ++ replaceChar c rep xs else x :: replaceChar c rep xs

/-- `escapeHtml` (`content.js` lines 358-360): replace `&` by `&amp;`,
then `<` by `&lt;`, then `>` by `&gt;`. -/
def escapeHtml (s : String) : String :=
  ⟨replaceChar '>' "&gt;".data (replaceChar '<' "&lt;".data
    (replaceChar '&' "&amp;".data s.data))⟩

/-- The per-message body of `exportHTML` (`content.js` line 306):
`msg.contentHtml || escapeHtml(msg.contentText)` — raw retained markup if
present, otherwise the escaped plain-text fallback. -/
def articleBody (m : MessageRecord) : String :=
  if m.contentHtml == "" then escapeHtml m.contentText else m.contentHtml

/-- A character of the output of `replaceChar` comes either from the
replacement string or is an unreplaced character of the input. -/
theorem mem_replaceChar {x c : Char} {rep : List Char} :
    ∀ {xs : List Char}, x ∈ replaceChar c rep xs → x ∈ rep ∨ (x ∈ xs ∧ x ≠ c) := by
  intro xs
  induction xs with
  | nil => intro h; simp [replaceChar] at h
  | cons y ys ih =>
    intro hx
    by_cases h : y = c
    · rw [replaceChar, if_pos (by simpa using h)] at hx
      rcases List.mem_append.mp hx with h1 | h2
      · exact Or.inl h1
      · rcases ih h2 with h1 | ⟨h2', h3⟩
        · exact Or.inl h1
        · exact Or.inr ⟨List.mem_cons_of_mem _ h2', h3⟩
    · rw [replaceChar, if_neg (by simpa using h)] at hx
      rcases List.mem_cons.mp hx with h1 | h2
      · subst h1
        exact Or.inr ⟨List.mem_cons_self _ _, h⟩
      · rcases ih h2 with h1 | ⟨h2', h3⟩
        · exact Or.inl h1
        · exact Or.inr ⟨List.mem_cons_of_mem _ h2', h3⟩

/-- C9: for a record with empty `contentHtml`, the HTML export body is the
escaped plain text and contains no `<` and no `>` character at all — in
particular no unescaped `<` or `>` — whatever `contentText` holds. -/
theorem exportHTML_fallback_escaped (m : MessageRecord) (h : m.contentHtml = "") :
    '<' ∉ (articleBody m).data ∧ '>' ∉ (articleBody m).data := by
  have hb : articleBody m = escapeHtml m.contentText := by
    simp [articleBody, h]
  rw [hb]
  constructor
  · intro hmem
    rcases mem_replaceChar hmem with h1 | ⟨h2, _⟩
    · simp at h1
    · rcases mem_replaceChar h2 with h3 | ⟨_, hne⟩
      · simp at h3
      · exact hne rfl
  · intro hmem
    rcases mem_replaceChar hmem with h1 | ⟨_, hne⟩
    · simp at h1
    · exact hne rfl

/-- A record whose plain text contains a script tag and whose markup is
absent. -/
def recScript : MessageRecord :=
  { id := "aimsg_9", role := "ai", timestampText := "",
    topPx := 0, contentHtml := "", contentText := "<script>alert(1)</script>" }

/-- C9 witness: the fallback body for the script-bearing record contains
no `<` and no `>`. -/
theorem exportHTML_fallback_escaped_witness :
    '<' ∉ (articleBody recScript).data ∧ '>' ∉ (articleBody recScript).data :=
  exportHTML_fallback_escaped recScript rfl

-- ── C7: history-completion driver termination ─────────────────────────

/-- Outcome of one run of the history-completion driver. -/
inductive DriverResult where
  | noContainer
  | captured (iterations count : Nat)
deriving Repr, DecidableEq

/-- The while loop of `autoScrollAndCapture` (`content.js` lines 162-176),
run against a synthetic source: `f i` is the store's record count after
the scan of iteration `i` (`f 0` is the count on entry; the loop starts
with `lastCount = 0`, `stableRounds = 0`).  Each iteration scrolls to the
top, waits, rescans, and compares the count `f (i+1)` with `lastCount`:
equal counts increment `stableRounds`, a change resets `stableRounds` to 0
and updates `lastCount`.  The loop exits when `stableRounds` reaches 3,
reporting the iteration index and the final captured count.  `fuel` bounds
the recursion for totality; `none` means the fuel ran out before the loop
exited. -/
def driverLoop (f : Nat → Nat) : Nat → Nat → Nat → Nat → Option (Nat × Nat)
  | 0, _, _, _ => none
  | fuel+1, i, last, s =>
    if 3 ≤ s then some (i, f i)
    else if f (i+1) = last then driverLoop f fuel (i+1) last (s+1)
    else driverLoop f fuel (i+1) (f (i+1)) 0

/-- `autoScrollAndCapture` (`content.js` lines 145-184): if no scrollable
container is found the run aborts before the loop with a distinct
no-container failure and performs zero scroll iterations; otherwise the
scroll loop runs to stability and the final count is reported. -/
def autoScrollAndCapture (hasContainer : Bool) (f : Nat → Nat) (fuel : Nat) :
    Option DriverResult :=
  if hasContainer then
    (driverLoop f fuel 0 0 0).map (fun p => DriverResult.captured p.1 p.2)
  else some DriverResult.noContainer

/-- Once every future scan count equals `last`, the loop exits after the
remaining `3 - s` iterations. -/
theorem driverLoop_stable_exit (f : Nat → Nat) :
    ∀ (k i last s fuel : Nat), s + k = 3 → (∀ j, i + 1 ≤ j → f j = last) → k < fuel →
      driverLoop f fuel i last s = some (i + k, f (i + k)) := by
  intro k
  induction k with
  | zero =>
    intro i last s fuel h3 _ hfuel
    match fuel, hfuel with
    | fuel+1, _ =>
      simp [driverLoop, show 3 ≤ s by omega]
  | succ k ih =>
    intro i last s fuel h3 hconst hfuel
    match fuel, hfuel with
    | fuel+1, _ =>
      have hs : ¬ 3 ≤ s := by omega
      have hcur : f (i+1) = last := hconst (i+1) (by omega)
      have hrec := ih (i+1) last (s+1) fuel (by omega)
        (fun j hj => hconst j (by omega)) (by omega)
      simp only [driverLoop, if_neg hs, if_pos hcur]
      rw [hrec]
      have : i + 1 + k = i + (k + 1) := by omega
      rw [this]

/-- Whenever the loop exits, the exit happened because the count was
unchanged across three consecutive iterations, and the reported count is
the count of the final iteration. -/
theorem driverLoop_exit_shape (f : Nat → Nat) :
    ∀ (fuel i last s iters c : Nat), s ≤ i → (∀ t, t < s → f (i - t) = last) →
      driverLoop f fuel i last s = some (iters, c) →
      3 ≤ iters ∧ c = f iters ∧ f (iters - 1) = f iters ∧ f (iters - 2) = f iters := by
  intro fuel
  induction fuel with
  | zero =>
    intro i last s iters c _ _ h
    simp [driverLoop] at h
  | succ fuel ih =>
    intro i last s iters c hsi hinv h
    by_cases hs : 3 ≤ s
    · rw [driverLoop, if_pos hs] at h
      have hi : iters = i ∧ c = f i := by
        have := h
        simp at this
        exact ⟨this.1.symm, this.2.symm⟩
      obtain ⟨hi1, hi2⟩ := hi
      subst hi1
      have e0 : f iters = last := by simpa using hinv 0 (by omega)
      have e1 : f (iters - 1) = last := hinv 1 (by omega)
      have e2 : f (iters - 2) = last := hinv 2 (by omega)
      exact ⟨by omega, by rw [hi2], by rw [e1, e0], by rw [e2, e0]⟩
    · by_cases hc : f (i+1) = last
      · rw [driverLoop, if_neg hs, if_pos hc] at h
        apply ih (i+1) last (s+1) iters c (by omega) ?_ h
        intro t ht
        match t with
        | 0 => simpa using hc
        | t'+1 =>
          have := hinv t' (by omega)
          have heq : i + 1 - (t' + 1) = i - t' := by omega
          rw [heq]
          exact this
      · rw [driverLoop, if_neg hs, if_neg hc] at h
        apply ih (i+1) (f (i+1)) 0 iters c (by omega) ?_ h
        intro t ht
        exact absurd ht (by omega)

/-- From a state at or before the stabilization point `N`, with `last`
tracking the previous scan count, the loop exits within `N + 3` total
iterations. -/
theorem driverLoop_bound (f : Nat → Nat) (N : Nat) (hN : 1 ≤ N)
    (hstab : ∀ j, N ≤ j → f j = f N) :
    ∀ (d i last s fuel : Nat), i + d = N → (1 ≤ i → last = f i) → s ≤ 3 → d + 4 ≤ fuel →
      ∃ iters c, driverLoop f fuel i last s = some (iters, c) ∧ iters ≤ N + 3 := by
  intro d
  induction d with
  | zero =>
    intro i last s fuel hiN hlast hs hfuel
    have hi : i = N := by omega
    subst hi
    have hlast' : last = f i := hlast (by omega)
    by_cases h3 : 3 ≤ s
    · match fuel, hfuel with
      | fuel+1, _ =>
        refine ⟨i, f i, ?_, by omega⟩
        simp [driverLoop, h3]
    · match fuel, hfuel with
      | fuel+1, _ =>
        have hcur : f (i+1) = last := by
          rw [hlast']
          exact hstab (i+1) (by omega)
        have hexit := driverLoop_stable_exit f (3 - (s+1)) (i+1) last (s+1) fuel
          (by omega) ?_ (by omega)
        · refine ⟨i + 1 + (3 - (s+1)), f (i + 1 + (3 - (s+1))), ?_, by omega⟩
          rw [driverLoop, if_neg h3, if_pos hcur]
          exact hexit
        · intro j hj
          rw [hlast']
          exact hstab j (by omega)
  | succ d ih =>
    intro i last s fuel hiN hlast hs hfuel
    by_cases h3 : 3 ≤ s
    · match fuel, hfuel with
      | fuel+1, _ =>
        refine ⟨i, f i, ?_, by omega⟩
        simp [driverLoop, h3]
    · match fuel, hfuel with
      | fuel+1, _ =>
        by_cases hc : f (i+1) = last
        · obtain ⟨iters, c, hrun, hle⟩ := ih (i+1) last (s+1) fuel (by omega)
            (fun _ => hc.symm) (by omega) (by omega)
          refine ⟨iters, c, ?_, hle⟩
          rw [driverLoop, if_neg h3, if_pos hc]
          exact hrun
        · obtain ⟨iters, c, hrun, hle⟩ := ih (i+1) (f (i+1)) 0 fuel (by omega)
            (fun _ => rfl) (by omega) (by omega)
          refine ⟨iters, c, ?_, hle⟩
          rw [driverLoop, if_neg h3, if_neg hc]
          exact hrun

/-- C7: against a synthetic source whose record count stops changing from
iteration `N` on, the driver with a scrollable container terminates within
`N + 3` iterations, exits exactly on three consecutive unchanged counts,
and reports the final captured count; without a scrollable container it
aborts before the loop with the distinct no-container failure and performs
zero scroll iterations. -/
theorem autoScroll_termination (f : Nat → Nat) (N : Nat) (hN : 1 ≤ N)
    (hstab : ∀ j, N ≤ j → f j = f N) :
    (∃ iters, autoScrollAndCapture true f (N + 4)
        = some (DriverResult.captured iters (f iters)) ∧
      iters ≤ N + 3 ∧ 3 ≤ iters ∧ f (iters - 1) = f iters ∧ f (iters - 2) = f iters) ∧
    autoScrollAndCapture false f (N + 4) = some DriverResult.noContainer := by
  constructor
  · obtain ⟨iters, c, hrun, hle⟩ := driverLoop_bound f N hN hstab N 0 0 0 (N+4)
      (by omega) (fun h => absurd h (by omega)) (by omega) (by omega)
    obtain ⟨h3, hc, h1, h2⟩ := driverLoop_exit_shape f (N+4) 0 0 0 iters c
      (by omega) (fun t ht => absurd ht (by omega)) hrun
    subst hc
    refine ⟨iters, ?_, hle, h3, h1, h2⟩
    simp [autoScrollAndCapture, hrun]
  · rfl

/-- C7 witness: a source that never produces new records (constant count
0) stabilizes after iteration 1 and the driver stops within 4 iterations;
the container-less run aborts. -/
theorem autoScroll_termination_witness :
    (∃ iters, autoScrollAndCapture true (fun _ => 0) (1 + 4)
        = some (DriverResult.captured iters ((fun _ => 0) iters)) ∧
      iters ≤ 1 + 3 ∧ 3 ≤ iters ∧
      (fun _ : Nat => 0) (iters - 1) = (fun _ : Nat => 0) iters ∧
      (fun _ : Nat => 0) (iters - 2) = (fun _ : Nat => 0) iters) ∧
    autoScrollAndCapture false (fun _ => 0) (1 + 4) = some DriverResult.noContainer :=
  autoScroll_termination (fun _ => 0) 1 (by decide) (fun _ _ => rfl)

-- ── C6: Markup-to-Markdown converter, ordered lists ───────────────────

/-- A parsed markup node as seen by `htmlToMarkdown` (`content.js` lines
210-258).  Tag names are stored lowercase (the code compares
`tagName.toLowerCase()`); `className` and `href` model the only
attributes the converter reads. -/
inductive DomNode where
  | text (s : String)
  | elem (tag className href : String) (children : List DomNode)
deriving Repr

mutual

/-- `node.textContent`: the concatenation of all descendant text. -/
def textContent : DomNode → String
  | .text s => s
  | .elem _ _ _ cs => textContentList cs

/-- `textContent` over a child list. -/
def textContentList : List DomNode → String
  | [] => ""
  | n :: ns => textContent n ++ textContentList ns

end

mutual

/-- First `code` element among a node's descendants, document order
(`querySelector('code')` searches the subtree, not the node itself). -/
def findCodeNode : DomNode → Option DomNode
  | .text _ => none
  | .elem t c h cs =>
    if t == "code" then some (.elem t c h cs) else findCodeList cs

/-- `querySelector('code')` over a child list. -/
def findCodeList : List DomNode → Option DomNode
  | [] => none
  | n :: ns =>
    match findCodeNode n with
    | some r => some r
    | none => findCodeList ns

end

/-- JS `\w`: ASCII letter, digit or underscore. -/
def isWordChar (c : Char) : Bool := c.isAlphanum || c == '_'

/-- First match of `/language-(\w+)/` in a class string: the word
following the first `language-` occurrence that is followed by at least
one word character. -/
def extractLang : List Char → String
  | [] => ""
  | c :: cs =>
    if List.isPrefixOf "language-".data (c :: cs) then
      let w := ((c :: cs).drop 9).takeWhile isWordChar
      if w.isEmpty then extractLang cs else ⟨w⟩
    else extractLang cs

/-- Emit a run of `n` newlines with runs of 3 or more collapsed to 2. -/
def emitNLs (n : Nat) : List Char := List.replicate (if 3 ≤ n then 2 else n) '\n'

/-- Worker for `.replace(/\n{3,}/g, '\n\n')`: `n` pending newlines. -/
def collapseRunsAux : List Char → Nat → List Char
  | [], n => emitNLs n
  | c :: cs, n =>
    if c == '\n' then collapseRunsAux cs (n + 1)
    else emitNLs n ++ c :: collapseRunsAux cs 0

/-- `.replace(/\n{3,}/g, '\n\n')`: collapse runs of three or more
newlines to exactly two. -/
def collapseNewlineRuns (s : String) : String := ⟨collapseRunsAux s.data 0⟩

mutual

/-- The recursive `walk` of `htmlToMarkdown` (`content.js` lines 215-255).
`inPre` models `node.closest('pre')`: whether an ancestor (or the node's
parent chain inside the fragment) is a `pre` element. -/
def walk (inPre : Bool) : DomNode → String
  | .text s => s
  | .elem tag _className href cs =>
    let children := walkList (inPre || tag == "pre") cs
    if tag == "p" then children ++ "\n\n"
    else if tag == "br" then "\n"
    else if tag == "strong" || tag == "b" then "**" ++ children ++ "**"
    else if tag == "em" || tag == "i" then "*" ++ children ++ "*"
    else if tag == "code" then (if inPre then children else "`" ++ children ++ "`")
    else if tag == "pre" then
      let codeEl := findCodeList cs
      let lang :=
        match codeEl with
        | some (DomNode.elem _ ccn _ _) => extractLang ccn.data
        | _ => ""
      let code :=
        match codeEl with
        | some n => textContent n
        | none => textContentList cs
      "```" ++ lang ++ "\n" ++ code ++ "\n```\n\n"
    else if tag == "h1" then "# " ++ children ++ "\n\n"
    else if tag == "h2" then "## " ++ children ++ "\n\n"
    else if tag == "h3" then "### " ++ children ++ "\n\n"
    else if tag == "h4" then "#### " ++ children ++ "\n\n"
    else if tag == "ul" then children ++ "\n"
    else if tag == "ol" then walkOl inPre 0 cs ++ "\n"
    else if tag == "li" then "- " ++ children
    else if tag == "a" then "[" ++ children ++ "](" ++ (if href == "" then "#" else href) ++ ")"
    else if tag == "hr" then "---\n\n"
    else if tag == "blockquote" then "> " ++ children.replace "\n" "\n> " ++ "\n\n"
    else children

/-- The `ol` case of `walk`: map over the child nodes with a counter `i`
that is incremented on every `li` element child, prefixing that item's
walked output with its number; non-`li` children are walked unchanged. -/
def walkOl (inPre : Bool) (i : Nat) : List DomNode → String
  | [] => ""
  | n :: ns =>
    match n with
    | DomNode.elem "li" _ _ _ =>
      toString (i + 1) ++ ". " ++ walk inPre n ++ "\n" ++ walkOl inPre (i + 1) ns
    | _ => walk inPre n ++ walkOl inPre i ns

/-- `Array.from(node.childNodes).map(walk).join('')`. -/
def walkList (inPre : Bool) : List DomNode → String
  | [] => ""
  | n :: ns => walk inPre n ++ walkList inPre ns

end

/-- `htmlToMarkdown` (`content.js` lines 210-258): walk the fragment's
nodes (the wrapper div's children), collapse runs of three or more
newlines to two, and trim. -/
def htmlToMarkdown (fragment : List DomNode) : String :=
  jsTrim (collapseNewlineRuns (walkList false fragment))

/-- C6 counterexample: an ordered list with the single item `a` renders
as `1. - a` — the item receives the unordered `- ` marker from the `li`
rule in addition to the number applied by the `ol` rule — and not as
`1. a`, which the claim (number as the item's only list marker)
requires. -/
theorem olListItem_double_marker :
    htmlToMarkdown [DomNode.elem "ol" "" "" [DomNode.elem "li" "" "" [DomNode.text "a"]]]
      = "1. - a" ∧
    htmlToMarkdown [DomNode.elem "ol" "" "" [DomNode.elem "li" "" "" [DomNode.text "a"]]]
      ≠ "1. a" := by
  constructor
  · rfl
  · decide

/-- C6 amended: the `ol` rule numbers its immediate `li` children
sequentially starting at 1, each item on its own line, but each item
additionally carries the leading `- ` marker produced by the `li` rule,
so items render as `n. - content`; a list item outside an ordered list
receives just the leading `- ` marker. -/
theorem olNumbering_spec (items : List String) (s : String) :
    walkOl false 0 (items.map (fun t => DomNode.elem "li" "" "" [DomNode.text t]))
      = (items.enumFrom 0).foldr
          (fun p acc => toString (p.1 + 1) ++ ". " ++ ("- " ++ p.2) ++ "\n" ++ acc) "" ∧
    walk false (DomNode.elem "li" "" "" [DomNode.text s]) = "- " ++ s := by
  constructor
  · have aux : ∀ (l : List String) (i : Nat),
        walkOl false i (l.map (fun t => DomNode.elem "li" "" "" [DomNode.text t]))
          = (l.enumFrom i).foldr
              (fun p acc => toString (p.1 + 1) ++ ". " ++ ("- " ++ p.2) ++ "\n" ++ acc) "" := by
      intro l
      induction l with
      | nil => intro i; rfl
      | cons t ts ih =>
        intro i
        simp only [List.map_cons, walkOl, List.enumFrom, List.foldr_cons]
        rw [ih (i + 1)]
        have hwalk : walk false (DomNode.elem "li" "" "" [DomNode.text t]) = "- " ++ (t ++ "") := rfl
        rw [hwalk, String.append_empty]
    exact aux items 0
  · have hwalk : walk false (DomNode.elem "li" "" "" [DomNode.text s]) = "- " ++ (s ++ "") := rfl
    rw [hwalk, String.append_empty]
